import Mathlib

/-!
Verification development for the `vscode-jsonnet` extension
(`src/client/extension.ts`).

The extension is a thin shim: it derives a preview URI for a source
document, shells out to the `jsonnet` compiler, and wraps the formatted
output (JSON pretty-printed with 4-space indent, or YAML) in an HTML
template.  We give a shallow embedding of the pure logic: URIs are
records of decoded components (percent-encoding is not modelled; the
well-formedness predicate `Uri.wellFormed` plays its role by keeping
reserved delimiter characters out of the components), the external
compiler invocation is a function `String → Except String String`
(command line in, stdout or thrown error message out), and the
host-API surface (alerts, command dispatch, event emitter) is
reified as data.
-/

/-- Split a character list at the first occurrence of `c`:
`some (before, after)` when `c` occurs, `none` otherwise.
This is the primitive underlying the URI-parsing regular expression
`^(([^:/?#]+?):)?(\/\/([^/?#]*))?([^?#]*)(\?([^#]*))?(#(.*))?`
used by the host's `Uri.parse`. -/
def splitFirst (c : Char) : List Char → Option (List Char × List Char)
  | [] => none
  | x :: xs =>
    if x = c then some ([], xs)
    else
      match splitFirst c xs with
      | none => none
      | some p => some (x :: p.1, p.2)

/-- Split at the first occurrence of `c`, returning the whole input and
an empty tail when `c` does not occur. -/
def splitTail (c : Char) (cs : List Char) : List Char × List Char :=
  match splitFirst c cs with
  | none => (cs, [])
  | some p => p

/-- Extract the scheme from the part of a URI before query and
fragment: the prefix before the first `:` is a scheme only when it is
nonempty and contains no `/` (mirroring the character class
`[^:/?#]+` of the parsing regular expression; `?` and `#` have
already been split off). -/
def schemeSplit (cs : List Char) : List Char × List Char :=
  match splitFirst ':' cs with
  | none => ([], cs)
  | some p => if p.1.isEmpty || p.1.contains '/' then ([], cs) else p

/-- Extract the authority: when the remainder starts with `//`, the
authority is the run of non-`/` characters that follows and the path
is the rest; otherwise the authority is empty. -/
def authoritySplit (cs : List Char) : List Char × List Char :=
  match cs with
  | '/' :: '/' :: r => (r.takeWhile (fun c => c != '/'), r.dropWhile (fun c => c != '/'))
  | r => ([], r)

/-- A URI as the host API exposes it: five decoded components. -/
structure Uri where
  scheme : String
  authority : String
  path : String
  query : String
  fragment : String
deriving DecidableEq

/-- Serialization of a URI, mirroring the host's `Uri.toString`
(without percent-encoding): `scheme:` when the scheme is nonempty,
`//` when there is an authority or the scheme is `file`, then path,
`?query` and `#fragment` when nonempty. -/
def Uri.toString (u : Uri) : String :=
  (if u.scheme = "" then "" else u.scheme ++ ":")
  ++ (if u.authority ≠ "" ∨ u.scheme = "file" then "//" ++ u.authority else "")
  ++ u.path
  ++ (if u.query = "" then "" else "?" ++ u.query)
  ++ (if u.fragment = "" then "" else "#" ++ u.fragment)

/-- Core of `Uri.parse` on character lists: fragment is everything
after the first `#`; query everything after the first `?` before
that; then scheme, authority and path as in the host's parsing
regular expression. -/
def Uri.parseChars (cs : List Char) : Uri :=
  let fs := splitTail '#' cs
  let qs := splitTail '?' fs.1
  let ss := schemeSplit qs.1
  let auth := authoritySplit ss.2
  { scheme := ss.1.asString
    authority := auth.1.asString
    path := auth.2.asString
    query := qs.2.asString
    fragment := fs.2.asString }

/-- The host's `Uri.parse`. -/
def Uri.parse (s : String) : Uri := Uri.parseChars s.toList

/-- Well-formedness of a URI at the decoded-component level: the
reserved delimiters that percent-encoding would otherwise escape do
not occur inside components, the scheme is nonempty, and the path is
absolute (or empty) without impersonating an authority.  Source file
URIs (`file:///…`) satisfy all of these. -/
def Uri.wellFormed (u : Uri) : Prop :=
  u.scheme ≠ "" ∧
  (∀ c ∈ u.scheme.toList, c ≠ ':' ∧ c ≠ '/' ∧ c ≠ '?' ∧ c ≠ '#') ∧
  (∀ c ∈ u.authority.toList, c ≠ '/' ∧ c ≠ '?' ∧ c ≠ '#') ∧
  (∀ c ∈ u.path.toList, c ≠ '?' ∧ c ≠ '#') ∧
  (∀ c ∈ u.query.toList, c ≠ '#') ∧
  (u.path = "" ∨ u.path.toList.head? = some '/') ∧
  (u.authority = "" → u.scheme ≠ "file" → u.path.toList.take 2 ≠ ['/', '/'])

instance (u : Uri) : Decidable u.wellFormed := by
  unfold Uri.wellFormed
  infer_instance

mutual

/-- A parsed JSON value; numbers keep their lexeme so that no
floating-point semantics needs to be modelled.  Arrays and objects
carry their own list types so that all recursion over values is
structural. -/
inductive Json where
  | null
  | bool (b : Bool)
  | num (lit : String)
  | str (s : String)
  | arr (xs : JsonItems)
  | obj (fields : JsonFields)

/-- The items of a JSON array. -/
inductive JsonItems where
  | nil
  | cons (hd : Json) (tl : JsonItems)

/-- The fields of a JSON object, in source order. -/
inductive JsonFields where
  | nil
  | cons (key : String) (val : Json) (tl : JsonFields)

end

/-- JSON insignificant whitespace. -/
def isJsonWs (c : Char) : Bool :=
  c == ' ' || c == '\t' || c == '\n' || c == '\r'

/-- Drop leading JSON whitespace. -/
def skipJsonWs (cs : List Char) : List Char :=
  cs.dropWhile isJsonWs

/-- Value of a hexadecimal digit. -/
def hexVal (c : Char) : Option Nat :=
  if '0' ≤ c ∧ c ≤ '9' then some (c.toNat - '0'.toNat)
  else if 'a' ≤ c ∧ c ≤ 'f' then some (c.toNat - 'a'.toNat + 10)
  else if 'A' ≤ c ∧ c ≤ 'F' then some (c.toNat - 'A'.toNat + 10)
  else none

/-- Single-character JSON string escapes. -/
def escapeChar (c : Char) : Option Char :=
  if c = '"' then some '"'
  else if c = '\\' then some '\\'
  else if c = '/' then some '/'
  else if c = 'b' then some (Char.ofNat 8)
  else if c = 'f' then some (Char.ofNat 12)
  else if c = 'n' then some '\n'
  else if c = 'r' then some '\r'
  else if c = 't' then some '\t'
  else none

/-- Parse the body of a JSON string literal (after the opening quote),
returning the decoded characters and the rest of the input. -/
def parseStringBody : List Char → Except String (List Char × List Char)
  | [] => Except.error "Unterminated string in JSON"
  | '"' :: rest => Except.ok ([], rest)
  | '\\' :: 'u' :: h1 :: h2 :: h3 :: h4 :: r =>
    match hexVal h1, hexVal h2, hexVal h3, hexVal h4 with
    | some a, some b, some c, some d =>
      (match parseStringBody r with
       | Except.error e => Except.error e
       | Except.ok (tail, r2) =>
         Except.ok (Char.ofNat (((a * 16 + b) * 16 + c) * 16 + d) :: tail, r2))
    | _, _, _, _ => Except.error "Bad Unicode escape in JSON"
  | '\\' :: e :: r =>
    (match escapeChar e with
     | none => Except.error "Bad escape in JSON"
     | some c =>
       match parseStringBody r with
       | Except.error err => Except.error err
       | Except.ok (tail, r2) => Except.ok (c :: tail, r2))
  | c :: rest =>
    match parseStringBody rest with
    | Except.error e => Except.error e
    | Except.ok (tail, r2) => Except.ok (c :: tail, r2)

/-- Split a character list into its leading run of decimal digits and
the rest. -/
def digitsSplit (cs : List Char) : List Char × List Char :=
  (cs.takeWhile Char.isDigit, cs.dropWhile Char.isDigit)

/-- Parse an optional exponent part of a JSON number. -/
def parseExponent : List Char → Option (List Char × List Char)
  | [] => none
  | e :: rest =>
    if e = 'e' ∨ e = 'E' then
      let sg : List Char × List Char :=
        match rest with
        | '+' :: r => (['+'], r)
        | '-' :: r => (['-'], r)
        | r => ([], r)
      let ds := digitsSplit sg.2
      if ds.1.isEmpty then none else some (e :: (sg.1 ++ ds.1), ds.2)
    else none

/-- Parse a JSON number lexeme. -/
def parseNumberChars (cs : List Char) : Except String (List Char × List Char) :=
  let sign : List Char × List Char :=
    match cs with
    | '-' :: r => (['-'], r)
    | r => ([], r)
  let ip := digitsSplit sign.2
  if ip.1.isEmpty then Except.error "Unexpected token in JSON" else
  let fp : List Char × List Char :=
    match ip.2 with
    | '.' :: r =>
      let ds := digitsSplit r
      if ds.1.isEmpty then ([], ip.2) else ('.' :: ds.1, ds.2)
    | _ => ([], ip.2)
  let ep : List Char × List Char :=
    match parseExponent fp.2 with
    | none => ([], fp.2)
    | some p => p
  Except.ok (sign.1 ++ ip.1 ++ fp.1 ++ ep.1, ep.2)

mutual

/-- Fuel-indexed recursive-descent parser for one JSON value
(a model of the runtime's `JSON.parse`). -/
def parseJsonVal : Nat → List Char → Except String (Json × List Char)
  | 0, _ => Except.error "JSON input too deeply nested"
  | fuel + 1, cs =>
    match skipJsonWs cs with
    | 'n' :: 'u' :: 'l' :: 'l' :: r => Except.ok (Json.null, r)
    | 't' :: 'r' :: 'u' :: 'e' :: r => Except.ok (Json.bool true, r)
    | 'f' :: 'a' :: 'l' :: 's' :: 'e' :: r => Except.ok (Json.bool false, r)
    | '"' :: r =>
      (match parseStringBody r with
       | Except.error e => Except.error e
       | Except.ok (body, r2) => Except.ok (Json.str body.asString, r2))
    | '[' :: r =>
      (match skipJsonWs r with
       | ']' :: r2 => Except.ok (Json.arr JsonItems.nil, r2)
       | _ =>
         match parseJsonItems fuel r with
         | Except.error e => Except.error e
         | Except.ok (xs, r2) => Except.ok (Json.arr xs, r2))
    | '{' :: r =>
      (match skipJsonWs r with
       | '}' :: r2 => Except.ok (Json.obj JsonFields.nil, r2)
       | _ =>
         match parseJsonFields fuel r with
         | Except.error e => Except.error e
         | Except.ok (fs, r2) => Except.ok (Json.obj fs, r2))
    | r =>
      match parseNumberChars r with
      | Except.error e => Except.error e
      | Except.ok (lit, r2) => Except.ok (Json.num lit.asString, r2)

/-- Parse the comma-separated items of a JSON array up to and
including the closing bracket. -/
def parseJsonItems : Nat → List Char → Except String (JsonItems × List Char)
  | 0, _ => Except.error "JSON input too deeply nested"
  | fuel + 1, cs =>
    match parseJsonVal fuel cs with
    | Except.error e => Except.error e
    | Except.ok (v, r) =>
      match skipJsonWs r with
      | ',' :: r2 =>
        (match parseJsonItems fuel r2 with
         | Except.error e => Except.error e
         | Except.ok (xs, r3) => Except.ok (JsonItems.cons v xs, r3))
      | ']' :: r2 => Except.ok (JsonItems.cons v JsonItems.nil, r2)
      | _ => Except.error "Expected comma or closing bracket in JSON array"

/-- Parse the comma-separated fields of a JSON object up to and
including the closing brace. -/
def parseJsonFields : Nat → List Char → Except String (JsonFields × List Char)
  | 0, _ => Except.error "JSON input too deeply nested"
  | fuel + 1, cs =>
    match skipJsonWs cs with
    | '"' :: r =>
      (match parseStringBody r with
       | Except.error e => Except.error e
       | Except.ok (key, r2) =>
         match skipJsonWs r2 with
         | ':' :: r3 =>
           (match parseJsonVal fuel r3 with
            | Except.error e => Except.error e
            | Except.ok (v, r4) =>
              match skipJsonWs r4 with
              | ',' :: r5 =>
                (match parseJsonFields fuel r5 with
                 | Except.error e => Except.error e
                 | Except.ok (fs, r6) => Except.ok (JsonFields.cons key.asString v fs, r6))
              | '}' :: r5 => Except.ok (JsonFields.cons key.asString v JsonFields.nil, r5)
              | _ => Except.error "Expected comma or closing brace in JSON object")
         | _ => Except.error "Expected colon in JSON object")
    | _ => Except.error "Expected string key in JSON object"

end

/-- Model of the runtime's `JSON.parse`: parse one value and require
only whitespace to remain. -/
def jsonParse (s : String) : Except String Json :=
  let cs := s.toList
  match parseJsonVal (cs.length + 1) cs with
  | Except.error e => Except.error e
  | Except.ok (v, r) =>
    match skipJsonWs r with
    | [] => Except.ok v
    | _ => Except.error "Unexpected trailing characters in JSON"

/-- Escape one character for a JSON string literal. -/
def jsonEscAux (c : Char) (acc : List Char) : List Char :=
  if c = '"' then '\\' :: '"' :: acc
  else if c = '\\' then '\\' :: '\\' :: acc
  else if c = '\n' then '\\' :: 'n' :: acc
  else if c = '\t' then '\\' :: 't' :: acc
  else if c = '\r' then '\\' :: 'r' :: acc
  else c :: acc

/-- Quote a string as a JSON string literal. -/
def jsonQuote (s : String) : String :=
  ('"' :: s.toList.foldr jsonEscAux ['"']).asString

/-- A run of `n` spaces. -/
def spaces (n : Nat) : String :=
  (List.replicate n ' ').asString

mutual

/-- Model of `JSON.stringify(v, null, 4)` at indentation level `ind`. -/
def stringifyVal : Nat → Json → String
  | _, Json.null => "null"
  | _, Json.bool true => "true"
  | _, Json.bool false => "false"
  | _, Json.num lit => lit
  | _, Json.str s => jsonQuote s
  | _, Json.arr JsonItems.nil => "[]"
  | ind, Json.arr (JsonItems.cons x xs) =>
    "[\n" ++ stringifyItems (ind + 4) (JsonItems.cons x xs) ++ "\n" ++ spaces ind ++ "]"
  | _, Json.obj JsonFields.nil => "\x7b\x7d"
  | ind, Json.obj (JsonFields.cons k v fs) =>
    "\x7b\n" ++ stringifyFields (ind + 4) (JsonFields.cons k v fs) ++ "\n" ++ spaces ind ++ "\x7d"

/-- Array items for `stringifyVal`, one per line, comma-separated. -/
def stringifyItems : Nat → JsonItems → String
  | _, JsonItems.nil => ""
  | ind, JsonItems.cons x JsonItems.nil => spaces ind ++ stringifyVal ind x
  | ind, JsonItems.cons x (JsonItems.cons y xs) =>
    spaces ind ++ stringifyVal ind x ++ ",\n" ++ stringifyItems ind (JsonItems.cons y xs)

/-- Object fields for `stringifyVal`, one per line, comma-separated. -/
def stringifyFields : Nat → JsonFields → String
  | _, JsonFields.nil => ""
  | ind, JsonFields.cons k v JsonFields.nil => spaces ind ++ jsonQuote k ++ ": " ++ stringifyVal ind v
  | ind, JsonFields.cons k v (JsonFields.cons k2 v2 fs) =>
    spaces ind ++ jsonQuote k ++ ": " ++ stringifyVal ind v ++ ",\n"
      ++ stringifyFields ind (JsonFields.cons k2 v2 fs)

end

/-- Model of the runtime's `JSON.stringify(v, null, 4)`. -/
def jsonStringify (v : Json) : String :=
  stringifyVal 0 v

/-- Scalar YAML representation of an atomic JSON value. -/
def yamlScalarStr : Json → Option String
  | Json.null => some "null"
  | Json.bool true => some "true"
  | Json.bool false => some "false"
  | Json.num lit => some lit
  | Json.str s => some s
  | _ => none

/-- Inline YAML representation: scalars, the empty sequence and the
empty mapping. -/
def yamlInlineRep (v : Json) : Option String :=
  match v with
  | Json.arr JsonItems.nil => some "[]"
  | Json.obj JsonFields.nil => some "\x7b\x7d"
  | _ => yamlScalarStr v

mutual

/-- Block-style YAML dump of a composite JSON value at indentation
`ind` (a simplified model of the external library's `safeDump`,
without quoting or flow-style heuristics). -/
def yamlBlock : Nat → Json → String
  | ind, Json.arr xs => yamlItems ind xs
  | ind, Json.obj fs => yamlFields ind fs
  | ind, v => spaces ind ++ ((yamlScalarStr v).getD "") ++ "\n"

/-- Sequence items for `yamlBlock`. -/
def yamlItems : Nat → JsonItems → String
  | _, JsonItems.nil => ""
  | ind, JsonItems.cons x xs =>
    (match yamlInlineRep x with
     | some s => spaces ind ++ "- " ++ s ++ "\n"
     | none => spaces ind ++ "-\n" ++ yamlBlock (ind + 2) x)
      ++ yamlItems ind xs

/-- Mapping fields for `yamlBlock`. -/
def yamlFields : Nat → JsonFields → String
  | _, JsonFields.nil => ""
  | ind, JsonFields.cons k v fs =>
    (match yamlInlineRep v with
     | some s => spaces ind ++ k ++ ": " ++ s ++ "\n"
     | none => spaces ind ++ k ++ ":\n" ++ yamlBlock (ind + 2) v)
      ++ yamlFields ind fs

end

/-- Model of the external library's `yaml.safeDump`. -/
def yamlSafeDump (v : Json) : String :=
  match yamlInlineRep v with
  | some s => s ++ "\n"
  | none => yamlBlock 0 v

/-- The extension's resolved output format (`"json" | "yaml"`). -/
inductive OutputFormat where
  | json
  | yaml
deriving DecidableEq

/-- The slice of the host configuration store the extension reads
(`jsonnet.executablePath`, `jsonnet.extStrs`, `jsonnet.outputFormat`);
`none` models a JavaScript `null`/`undefined` entry, and the
external-string object is an ordered association list mirroring
`Object.keys` enumeration order. -/
structure JsonnetConfig where
  executablePath : Option String
  extStrsObj : Option (List (String × String))
  outputFormat : OutputFormat
deriving DecidableEq

/-- The user-facing warnings shown through `vs.window.showErrorMessage`
in namespace `alert` of the source. -/
inductive Alert where
  | noActiveWindow
  | documentNotJsonnet (languageId : String)
  | couldNotRenderJsonnet (reason : String)
  | jsonnetCommandNotOnPath
  | jsonnetCommandIsNull
deriving DecidableEq

/-- The platform distinction made by `os.type() === "Windows_NT"`. -/
inductive OSType where
  | windowsNT
  | other
deriving DecidableEq

/-- The module-global mutable state of the extension: the variable
`jsonnet.executable`. -/
structure ExtensionState where
  executable : String
deriving DecidableEq

/-- Initial value of the module globals: `jsonnet.executable` starts
as the literal `"jsonnet"`. -/
def initialExtensionState : ExtensionState :=
  { executable := "jsonnet" }

namespace workspace

/-- `workspace.extStrs`: builds the `--ext-str KEY="VALUE"` fragments
from the `jsonnet.extStrs` configuration object, joined by single
spaces; the empty string when the entry is null. -/
def extStrs (config : JsonnetConfig) : String :=
  match config.extStrsObj with
  | none => ""
  | some kvs =>
    String.intercalate " "
      (kvs.map (fun kv => "--ext-str " ++ kv.1 ++ "=\"" ++ kv.2 ++ "\""))

/-- `workspace.outputFormat`: passthrough of the configured value. -/
def outputFormat (config : JsonnetConfig) : OutputFormat :=
  config.outputFormat

/-- `workspace.configureUnix`: an explicitly configured executable
path is stored into the global `jsonnet.executable`; otherwise the
search path is probed for the `jsonnet` command (`execSync("which
jsonnet")`, modelled by the boolean `whichJsonnetSucceeds`), and a
failed probe produces a warning and `false`. -/
def configureUnix (config : JsonnetConfig) (whichJsonnetSucceeds : Bool)
    (st : ExtensionState) : Bool × ExtensionState × List Alert :=
  match config.executablePath with
  | some p => (true, { st with executable := p }, [])
  | none =>
    if whichJsonnetSucceeds then (true, st, [])
    else (false, st, [Alert.jsonnetCommandNotOnPath])

/-- `workspace.configureWindows`: an explicit executable path is
mandatory; its absence produces a warning and `false`. -/
def configureWindows (config : JsonnetConfig)
    (st : ExtensionState) : Bool × ExtensionState × List Alert :=
  match config.executablePath with
  | none => (false, st, [Alert.jsonnetCommandIsNull])
  | some p => (true, { st with executable := p }, [])

/-- `workspace.configure`: platform dispatch on `os.type()`. -/
def configure (osType : OSType) (config : JsonnetConfig)
    (whichJsonnetSucceeds : Bool) (st : ExtensionState) :
    Bool × ExtensionState × List Alert :=
  match osType with
  | OSType.windowsNT => configureWindows config st
  | OSType.other => configureUnix config whichJsonnetSucceeds st

end workspace

namespace html

/-- `html.body`. -/
def body (b : String) : String :=
  "<html><body>" ++ b ++ "</body></html>"

/-- `html.codeLiteral`. -/
def codeLiteral (code : String) : String :=
  "<pre><code>" ++ code ++ "</code></pre>"

/-- `html.errorMessage`. -/
def errorMessage (message : String) : String :=
  "<i><pre>" ++ message ++ "</pre></i>"

/-- `html.prettyPrintObject`: in both branches the compiler output is
first parsed with `JSON.parse`; a parse failure is a thrown condition
(`Except.error`). -/
def prettyPrintObject (json : String) (outputFormat : OutputFormat) :
    Except String String :=
  if outputFormat = OutputFormat.yaml then
    match jsonParse json with
    | Except.error e => Except.error e
    | Except.ok v => Except.ok (codeLiteral (yamlSafeDump v))
  else
    match jsonParse json with
    | Except.error e => Except.error e
    | Except.ok v => Except.ok (codeLiteral (jsonStringify v))

end html

namespace jsonnet

/-- `jsonnet.PREVIEW_SCHEME`. -/
def PREVIEW_SCHEME : String := "jsonnet-preview"

/-- `jsonnet.canonicalPreviewUri`: change the scheme to the preview
scheme, append `.rendered` to the path, and encode the original URI
(serialized) in the query. -/
def canonicalPreviewUri (fileUri : Uri) : Uri :=
  { fileUri with
      scheme := PREVIEW_SCHEME
      path := fileUri.path ++ ".rendered"
      query := Uri.toString fileUri }

/-- The slice of a host text document the extension reads. -/
structure TextDocument where
  uri : Uri
  languageId : String
  fileName : String
deriving DecidableEq

/-- The only instance state of `jsonnet.DocumentProvider`: the change
events fired through its `_onDidChange` emitter, in order. -/
structure DocumentProviderState where
  firedEvents : List Uri
deriving DecidableEq

/-- `DocumentProvider.update`: fire a change notification for `uri`. -/
def documentProviderUpdate (st : DocumentProviderState) (uri : Uri) :
    DocumentProviderState :=
  { st with firedEvents := st.firedEvents ++ [uri] }

/-- `DocumentProvider.renderDocument`: read the external-string and
output-format configuration fresh from the current host configuration,
run the compiler synchronously (`execSync` models the invocation:
command line in, stdout out, or a thrown error message), pretty-print,
and wrap in the HTML body template; any thrown condition is caught and
rendered through the error template.  The executable comes from the
module-global `jsonnet.executable` (the `ExtensionState`), not from
the current configuration. -/
def renderDocument (st : ExtensionState) (hostConfig : JsonnetConfig)
    (execSync : String → Except String String) (document : TextDocument) : String :=
  let extStrs := workspace.extStrs hostConfig
  let outputFormat := workspace.outputFormat hostConfig
  match execSync (st.executable ++ " " ++ extStrs ++ " " ++ document.fileName) with
  | Except.error e => html.body (html.errorMessage e)
  | Except.ok jsonOutput =>
    match html.prettyPrintObject jsonOutput outputFormat with
    | Except.error e => html.body (html.errorMessage e)
    | Except.ok pretty => html.body pretty

/-- `DocumentProvider.provideTextDocumentContent`: recover the source
URI by parsing the preview identity's query, open that document via
the host (which may fail), and render it. -/
def provideTextDocumentContent (st : ExtensionState) (hostConfig : JsonnetConfig)
    (execSync : String → Except String String)
    (openTextDocument : Uri → Except String TextDocument) (uri : Uri) :
    Except String String :=
  let sourceUri := Uri.parse uri.query
  (openTextDocument sourceUri).map (renderDocument st hostConfig execSync)

/-- The `onDidSaveTextDocument` subscriber registered in `activate`:
unconditionally fire a change notification for the saved document's
derived preview identity. -/
def onDidSaveTextDocument (provider : DocumentProviderState)
    (document : TextDocument) : DocumentProviderState :=
  documentProviderUpdate provider (canonicalPreviewUri document.uri)

end jsonnet

namespace display

/-- The host's view columns (the fixed maximum is three). -/
inductive ViewColumn where
  | one
  | two
  | three
deriving DecidableEq

/-- The slice of `vs.window.activeTextEditor` the extension reads;
`viewColumn` may be undefined. -/
structure ActiveEditor where
  languageId : String
  uri : Uri
  viewColumn : Option ViewColumn
deriving DecidableEq

/-- Observable outcome of `display.previewJsonnet`: either a warning
was shown and nothing dispatched, or the `vscode.previewHtml` command
was dispatched with a preview URI, a target column and a title. -/
inductive PreviewOutcome where
  | warned (a : Alert)
  | dispatched (command : String) (uri : Uri) (column : Option ViewColumn) (title : String)
deriving DecidableEq

/-- `display.getViewColumn`: no active editor defaults to column one;
without `sideBySide` the active editor's own column; with it, one
column to the right of columns one and two, and otherwise the active
column unchanged. -/
def getViewColumn (activeTextEditor : Option ActiveEditor) (sideBySide : Bool) :
    Option ViewColumn :=
  match activeTextEditor with
  | none => some ViewColumn.one
  | some active =>
    if !sideBySide then active.viewColumn
    else
      match active.viewColumn with
      | some ViewColumn.one => some ViewColumn.two
      | some ViewColumn.two => some ViewColumn.three
      | c => c

/-- `display.previewJsonnet`: warn and return without dispatch when
there is no active editor or its language is not `jsonnet`; otherwise
dispatch `vscode.previewHtml` on the canonical preview URI. -/
def previewJsonnet (activeTextEditor : Option ActiveEditor) (sideBySide : Bool) :
    PreviewOutcome :=
  match activeTextEditor with
  | none => PreviewOutcome.warned Alert.noActiveWindow
  | some editor =>
    if editor.languageId ≠ "jsonnet" then
      PreviewOutcome.warned (Alert.documentNotJsonnet editor.languageId)
    else
      PreviewOutcome.dispatched "vscode.previewHtml"
        (jsonnet.canonicalPreviewUri editor.uri)
        (getViewColumn activeTextEditor sideBySide)
        "Jsonnet property preview"

/-- Modelled from the spec: the `preview-to-side` target pane is one
column to the right of the active column, capped at the fixed maximum
column count of three. -/
def columnToTheRightCapped : ViewColumn → ViewColumn
  | ViewColumn.one => ViewColumn.two
  | ViewColumn.two => ViewColumn.three
  | ViewColumn.three => ViewColumn.three

end display

/-! Helper lemmas. -/

theorem intercalate_go_acc (s : String) (ys : List String) :
    ∀ (a b : String), String.intercalate.go (a ++ b) s ys = a ++ String.intercalate.go b s ys := by
  induction ys with
  | nil => intro a b; simp [String.intercalate.go]
  | cons y ys ih =>
    intro a b
    show String.intercalate.go (a ++ b ++ s ++ y) s ys
      = a ++ String.intercalate.go (b ++ s ++ y) s ys
    rw [String.append_assoc, String.append_assoc, ← String.append_assoc b s y, ih]

theorem intercalate_singleton (s x : String) : String.intercalate s [x] = x := rfl

theorem intercalate_cons_cons (s x y : String) (l : List String) :
    String.intercalate s (x :: y :: l) = x ++ s ++ String.intercalate s (y :: l) := by
  show String.intercalate.go x s (y :: l) = x ++ s ++ String.intercalate.go y s l
  show String.intercalate.go (x ++ s ++ y) s l = x ++ s ++ String.intercalate.go y s l
  rw [String.append_assoc, ← String.append_assoc x s y]
  have h0 : x ++ s ++ y = (x ++ s) ++ y := by rw [String.append_assoc]
  rw [h0, intercalate_go_acc, String.append_assoc]

/-! Claim theorems. -/

/-- C5: `workspace.extStrs` yields the empty string when the
configuration entry is unset, and otherwise one
`--ext-str KEY="VALUE"` pair per binding joined by single spaces
(in particular the mapping `FOO ↦ bar` yields exactly
`--ext-str FOO="bar"`). -/
theorem c5_ext_strs_fragment :
    (∀ c : JsonnetConfig, c.extStrsObj = none → workspace.extStrs c = "")
    ∧ (∀ (c : JsonnetConfig) (kvs : List (String × String)), c.extStrsObj = some kvs →
        workspace.extStrs c = String.intercalate " "
          (kvs.map (fun kv => "--ext-str " ++ kv.1 ++ "=\"" ++ kv.2 ++ "\"")))
    ∧ (∀ (c : JsonnetConfig) (k v : String), c.extStrsObj = some [(k, v)] →
        workspace.extStrs c = "--ext-str " ++ k ++ "=\"" ++ v ++ "\"")
    ∧ (∀ (c : JsonnetConfig) (k v : String) (kv2 : String × String)
        (rest : List (String × String)), c.extStrsObj = some ((k, v) :: kv2 :: rest) →
        workspace.extStrs c = "--ext-str " ++ k ++ "=\"" ++ v ++ "\"" ++ " "
          ++ workspace.extStrs { c with extStrsObj := some (kv2 :: rest) }) := by
  refine ⟨?_, ?_, ?_, ?_⟩
  · intro c h; simp [workspace.extStrs, h]
  · intro c kvs h; simp [workspace.extStrs, h]
  · intro c k v h; simp [workspace.extStrs, h, intercalate_singleton]
  · intro c k v kv2 rest h
    simp only [workspace.extStrs, h, List.map_cons, intercalate_cons_cons]

/-- C5 witness: the mapping `{FOO: "bar"}` yields exactly
`--ext-str FOO="bar"` and the unset configuration yields `""`. -/
theorem c5_ext_strs_fragment_witness :
    workspace.extStrs
        { executablePath := none, extStrsObj := some [("FOO", "bar")],
          outputFormat := OutputFormat.json } = "--ext-str FOO=\"bar\""
    ∧ workspace.extStrs
        { executablePath := none, extStrsObj := none,
          outputFormat := OutputFormat.json } = "" :=
  ⟨c5_ext_strs_fragment.2.2.1 _ "FOO" "bar" rfl, c5_ext_strs_fragment.1 _ rfl⟩

/-- C6: with `sideBySide` the preview target column is one column to
the right of the active column, capped at the fixed maximum of three
(the rightmost of the three target panes falls back to itself), and
without `sideBySide` it is always the active editor's own column. -/
theorem c6_preview_target_column :
    (∀ (ed : display.ActiveEditor) (col : display.ViewColumn),
        ed.viewColumn = some col →
        display.getViewColumn (some ed) true = some (display.columnToTheRightCapped col))
    ∧ (∀ ed : display.ActiveEditor, ed.viewColumn = some display.ViewColumn.three →
        display.getViewColumn (some ed) true = ed.viewColumn)
    ∧ (∀ ed : display.ActiveEditor, display.getViewColumn (some ed) false = ed.viewColumn) := by
  refine ⟨?_, ?_, ?_⟩
  · intro ed col h
    cases col <;> simp [display.getViewColumn, display.columnToTheRightCapped, h]
  · intro ed h; simp [display.getViewColumn, h]
  · intro ed; simp [display.getViewColumn]

/-- C6 witness: from column three the side-by-side target stays at
column three, and without side-by-side the target is the active
column. -/
theorem c6_preview_target_column_witness :
    display.getViewColumn
        (some { languageId := "jsonnet",
                uri := { scheme := "file", authority := "", path := "/a.jsonnet",
                         query := "", fragment := "" },
                viewColumn := some display.ViewColumn.three }) true
      = some (display.columnToTheRightCapped display.ViewColumn.three)
    ∧ display.getViewColumn
        (some { languageId := "jsonnet",
                uri := { scheme := "file", authority := "", path := "/a.jsonnet",
                         query := "", fragment := "" },
                viewColumn := some display.ViewColumn.two }) false
      = some display.ViewColumn.two :=
  ⟨c6_preview_target_column.1 _ display.ViewColumn.three rfl,
   c6_preview_target_column.2.2 _⟩

/-- C7: `workspace.configure` is total (it returns a boolean, never
throwing): on the Unix-like platform an explicit executable path is
stored and succeeds; without one the search path is probed, a failed
probe warning and returning `false`; on the Windows-like platform an
absent explicit path warns and returns `false`, a present one is
stored and succeeds. -/
theorem c7_configure_resolution :
    (∀ (cfg : JsonnetConfig) (p : String) (whichOk : Bool) (st : ExtensionState),
        cfg.executablePath = some p →
        workspace.configure OSType.other cfg whichOk st
          = (true, { st with executable := p }, []))
    ∧ (∀ (cfg : JsonnetConfig) (st : ExtensionState), cfg.executablePath = none →
        workspace.configure OSType.other cfg true st = (true, st, []))
    ∧ (∀ (cfg : JsonnetConfig) (st : ExtensionState), cfg.executablePath = none →
        workspace.configure OSType.other cfg false st
          = (false, st, [Alert.jsonnetCommandNotOnPath]))
    ∧ (∀ (cfg : JsonnetConfig) (whichOk : Bool) (st : ExtensionState),
        cfg.executablePath = none →
        workspace.configure OSType.windowsNT cfg whichOk st
          = (false, st, [Alert.jsonnetCommandIsNull]))
    ∧ (∀ (cfg : JsonnetConfig) (p : String) (whichOk : Bool) (st : ExtensionState),
        cfg.executablePath = some p →
        workspace.configure OSType.windowsNT cfg whichOk st
          = (true, { st with executable := p }, [])) := by
  refine ⟨?_, ?_, ?_, ?_, ?_⟩
  · intro cfg p whichOk st h
    simp [workspace.configure, workspace.configureUnix, h]
  · intro cfg st h
    simp [workspace.configure, workspace.configureUnix, h]
  · intro cfg st h
    simp [workspace.configure, workspace.configureUnix, h]
  · intro cfg whichOk st h
    simp [workspace.configure, workspace.configureWindows, h]
  · intro cfg p whichOk st h
    simp [workspace.configure, workspace.configureWindows, h]

/-- C7 witness: the Unix probe failure and the Windows missing-path
cases warn and return `false`; an explicit path succeeds. -/
theorem c7_configure_resolution_witness :
    workspace.configure OSType.other
        { executablePath := none, extStrsObj := none, outputFormat := OutputFormat.json }
        false initialExtensionState
      = (false, initialExtensionState, [Alert.jsonnetCommandNotOnPath])
    ∧ workspace.configure OSType.windowsNT
        { executablePath := none, extStrsObj := none, outputFormat := OutputFormat.json }
        true initialExtensionState
      = (false, initialExtensionState, [Alert.jsonnetCommandIsNull])
    ∧ workspace.configure OSType.other
        { executablePath := some "/usr/bin/jsonnet", extStrsObj := none,
          outputFormat := OutputFormat.json }
        false initialExtensionState
      = (true, { executable := "/usr/bin/jsonnet" }, []) :=
  ⟨c7_configure_resolution.2.2.1 _ _ rfl,
   c7_configure_resolution.2.2.2.1 _ true _ rfl,
   c7_configure_resolution.1 _ "/usr/bin/jsonnet" false _ rfl⟩

/-- C8: `display.previewJsonnet` warns and does not dispatch the
preview command when there is no active editor, or when the active
editor's language is not `jsonnet`. -/
theorem c8_preview_guards :
    (∀ sideBySide : Bool,
        display.previewJsonnet none sideBySide
          = display.PreviewOutcome.warned Alert.noActiveWindow)
    ∧ (∀ (ed : display.ActiveEditor) (sideBySide : Bool), ed.languageId ≠ "jsonnet" →
        display.previewJsonnet (some ed) sideBySide
          = display.PreviewOutcome.warned (Alert.documentNotJsonnet ed.languageId)) := by
  refine ⟨?_, ?_⟩
  · intro sideBySide; rfl
  · intro ed sideBySide h
    simp [display.previewJsonnet, h]

/-- C8 witness: a YAML document in the active editor produces the
language warning and no dispatch. -/
theorem c8_preview_guards_witness :
    display.previewJsonnet
        (some { languageId := "yaml",
                uri := { scheme := "file", authority := "", path := "/a.yaml",
                         query := "", fragment := "" },
                viewColumn := some display.ViewColumn.one }) true
      = display.PreviewOutcome.warned (Alert.documentNotJsonnet "yaml") :=
  c8_preview_guards.2 _ true (by decide)

/-- C9: the save-event subscriber fires a change notification for the
saved document's derived preview identity unconditionally — the
outcome does not depend on the document's language (or any other
field besides its URI). -/
theorem c9_save_always_fires :
    (∀ (st : jsonnet.DocumentProviderState) (doc : jsonnet.TextDocument),
        jsonnet.onDidSaveTextDocument st doc
          = { firedEvents := st.firedEvents ++ [jsonnet.canonicalPreviewUri doc.uri] })
    ∧ (∀ (st : jsonnet.DocumentProviderState) (u : Uri) (lang1 lang2 fn1 fn2 : String),
        jsonnet.onDidSaveTextDocument st { uri := u, languageId := lang1, fileName := fn1 }
          = jsonnet.onDidSaveTextDocument st { uri := u, languageId := lang2, fileName := fn2 }) :=
  ⟨fun _ _ => rfl, fun _ _ _ _ _ _ => rfl⟩

/-- C2: `renderDocument` always returns a rendered HTML body (no
exception escapes), and when the compiler invocation throws with
message `m` the result is exactly the body template wrapping the
error template around `m`. -/
theorem c2_render_never_propagates :
    ∀ (st : ExtensionState) (cfg : JsonnetConfig)
      (execSync : String → Except String String) (doc : jsonnet.TextDocument),
      (∃ contents, jsonnet.renderDocument st cfg execSync doc = html.body contents)
      ∧ (∀ m, (∀ cmd, execSync cmd = Except.error m) →
          jsonnet.renderDocument st cfg execSync doc
            = html.body (html.errorMessage m)) := by
  intro st cfg execSync doc
  refine ⟨?_, ?_⟩
  · simp only [jsonnet.renderDocument]
    cases hx : execSync (st.executable ++ " " ++ workspace.extStrs cfg ++ " " ++ doc.fileName) with
    | error e => exact ⟨html.errorMessage e, rfl⟩
    | ok out =>
      cases hp : html.prettyPrintObject out (workspace.outputFormat cfg) with
      | error e => exact ⟨html.errorMessage e, by simp [hp]⟩
      | ok pretty => exact ⟨pretty, by simp [hp]⟩
  · intro m hm
    simp only [jsonnet.renderDocument, hm]

/-- C2 witness: a compiler stub that fails with message `boom` renders
to the error HTML document containing `boom`. -/
theorem c2_render_never_propagates_witness :
    jsonnet.renderDocument initialExtensionState
        { executablePath := none, extStrsObj := none, outputFormat := OutputFormat.json }
        (fun _ => Except.error "boom")
        { uri := { scheme := "file", authority := "", path := "/f.jsonnet",
                   query := "", fragment := "" },
          languageId := "jsonnet", fileName := "/f.jsonnet" }
      = html.body (html.errorMessage "boom") :=
  (c2_render_never_propagates _ _ _ _).2 "boom" (fun _ => rfl)

/-- C4: when the compiler succeeds and its stdout parses as JSON, the
render is the HTML body wrapping the pre/code template around the
4-space-indented JSON re-serialization (format `json`) or the YAML
re-encoding of the same parsed data (format `yaml`). -/
theorem c4_success_pretty_output :
    ∀ (st : ExtensionState) (cfg : JsonnetConfig)
      (execSync : String → Except String String) (doc : jsonnet.TextDocument)
      (out : String) (v : Json),
      (∀ cmd, execSync cmd = Except.ok out) →
      jsonParse out = Except.ok v →
      jsonnet.renderDocument st cfg execSync doc =
        html.body (html.codeLiteral
          (if cfg.outputFormat = OutputFormat.yaml then yamlSafeDump v
           else jsonStringify v)) := by
  intro st cfg execSync doc out v hex hp
  simp only [jsonnet.renderDocument, hex, html.prettyPrintObject, workspace.outputFormat, hp]
  by_cases hy : cfg.outputFormat = OutputFormat.yaml
  · simp [hy]
  · simp [hy]

set_option maxRecDepth 20000 in
set_option maxHeartbeats 2000000 in
/-- C4 witness: a stub returning `{"a": 1}` renders to the pre/code
wrapped 4-space-indented JSON under format `json`, and to the YAML
re-encoding under format `yaml`. -/
theorem c4_success_pretty_output_witness :
    jsonnet.renderDocument initialExtensionState
        { executablePath := none, extStrsObj := none, outputFormat := OutputFormat.json }
        (fun _ => Except.ok "\x7b\"a\": 1\x7d")
        { uri := { scheme := "file", authority := "", path := "/f.jsonnet",
                   query := "", fragment := "" },
          languageId := "jsonnet", fileName := "/f.jsonnet" }
      = html.body (html.codeLiteral
          (jsonStringify (Json.obj (JsonFields.cons "a" (Json.num "1") JsonFields.nil))))
    ∧ jsonnet.renderDocument initialExtensionState
        { executablePath := none, extStrsObj := none, outputFormat := OutputFormat.yaml }
        (fun _ => Except.ok "\x7b\"a\": 1\x7d")
        { uri := { scheme := "file", authority := "", path := "/f.jsonnet",
                   query := "", fragment := "" },
          languageId := "jsonnet", fileName := "/f.jsonnet" }
      = html.body (html.codeLiteral
          (yamlSafeDump (Json.obj (JsonFields.cons "a" (Json.num "1") JsonFields.nil)))) :=
  ⟨c4_success_pretty_output _ _ _ _ "\x7b\"a\": 1\x7d"
      (Json.obj (JsonFields.cons "a" (Json.num "1") JsonFields.nil)) (fun _ => rfl) rfl,
   c4_success_pretty_output _ _ _ _ "\x7b\"a\": 1\x7d"
      (Json.obj (JsonFields.cons "a" (Json.num "1") JsonFields.nil)) (fun _ => rfl) rfl⟩

/-- C10: both output formats parse the compiler output as JSON first,
so when stdout is not valid JSON the render takes the error path —
also when the requested format is `yaml`. -/
theorem c10_invalid_json_error_path :
    ∀ (st : ExtensionState) (cfg : JsonnetConfig)
      (execSync : String → Except String String) (doc : jsonnet.TextDocument)
      (out m : String),
      (∀ cmd, execSync cmd = Except.ok out) →
      jsonParse out = Except.error m →
      jsonnet.renderDocument st cfg execSync doc
        = html.body (html.errorMessage m) := by
  intro st cfg execSync doc out m hex hp
  simp only [jsonnet.renderDocument, hex, html.prettyPrintObject, workspace.outputFormat, hp]
  by_cases hy : cfg.outputFormat = OutputFormat.yaml
  · simp [hy]
  · simp [hy]

set_option maxRecDepth 20000 in
set_option maxHeartbeats 2000000 in
/-- C10 witness: non-JSON compiler output under the `yaml` format
still produces the error HTML document. -/
theorem c10_invalid_json_error_path_witness :
    jsonParse "%%%" = Except.error "Unexpected token in JSON"
    ∧ jsonnet.renderDocument initialExtensionState
        { executablePath := none, extStrsObj := none, outputFormat := OutputFormat.yaml }
        (fun _ => Except.ok "%%%")
        { uri := { scheme := "file", authority := "", path := "/f.jsonnet",
                   query := "", fragment := "" },
          languageId := "jsonnet", fileName := "/f.jsonnet" }
      = html.body (html.errorMessage "Unexpected token in JSON") :=
  ⟨rfl, c10_invalid_json_error_path _ _ _ _ _ _ (fun _ => rfl) rfl⟩

set_option maxRecDepth 20000 in
set_option maxHeartbeats 2000000 in
/-- C3 counterexample: the compiler path used by a render is NOT the
host configuration current at the render.  `configure` (run at
activation) stores `/old/jsonnet` into the module-global
`jsonnet.executable`; a later render under a current configuration
whose `executablePath` is `/new/jsonnet` still builds its command
with `/old/jsonnet` (observed through an echoing compiler stub whose
error message is its own command line). -/
theorem c3_counterexample_stale_executable :
    jsonnet.renderDocument
        (workspace.configure OSType.other
          { executablePath := some "/old/jsonnet", extStrsObj := none,
            outputFormat := OutputFormat.json } true initialExtensionState).2.1
        { executablePath := some "/new/jsonnet", extStrsObj := none,
          outputFormat := OutputFormat.json }
        (fun cmd => Except.error cmd)
        { uri := { scheme := "file", authority := "", path := "/w/f.jsonnet",
                   query := "", fragment := "" },
          languageId := "jsonnet", fileName := "/w/f.jsonnet" }
      = html.body (html.errorMessage "/old/jsonnet  /w/f.jsonnet")
    ∧ "/old/jsonnet" ≠ "/new/jsonnet" :=
  ⟨rfl, by decide⟩

/-- C3 amended: the external-string bindings and the output format
used by a render are read from the host configuration current at that
render (the render result is a pure function of them, nothing is
stored between renders), but the compiler path is the module-global
`jsonnet.executable` set by `configure`: the render ignores the
current configuration's `executablePath`. -/
theorem c3_amended_fresh_config_except_executable :
    ∀ (st : ExtensionState) (cfg : JsonnetConfig)
      (execSync : String → Except String String) (doc : jsonnet.TextDocument),
      (∀ p : Option String,
        jsonnet.renderDocument st { cfg with executablePath := p } execSync doc
          = jsonnet.renderDocument st cfg execSync doc)
      ∧ (jsonnet.renderDocument st cfg (fun cmd => Except.error cmd) doc
          = html.body (html.errorMessage
              (st.executable ++ " " ++ workspace.extStrs cfg ++ " " ++ doc.fileName)))
      ∧ (∀ (out : String) (v : Json), jsonParse out = Except.ok v →
          jsonnet.renderDocument st cfg (fun _ => Except.ok out) doc
            = html.body (html.codeLiteral
                (if cfg.outputFormat = OutputFormat.yaml then yamlSafeDump v
                 else jsonStringify v))) := by
  intro st cfg execSync doc
  refine ⟨fun p => rfl, rfl, ?_⟩
  intro out v hp
  simp only [jsonnet.renderDocument, html.prettyPrintObject, workspace.outputFormat, hp]
  by_cases hy : cfg.outputFormat = OutputFormat.yaml
  · simp [hy]
  · simp [hy]

set_option maxRecDepth 20000 in
set_option maxHeartbeats 2000000 in
/-- C3 amended witness: a concrete render under the `yaml` format with
stub output `{"a": 1}` uses the current configuration's format and
external strings and the module-global executable. -/
theorem c3_amended_fresh_config_except_executable_witness :
    jsonnet.renderDocument { executable := "/old/jsonnet" }
        { executablePath := some "/new/jsonnet", extStrsObj := none,
          outputFormat := OutputFormat.yaml }
        (fun _ => Except.ok "\x7b\"a\": 1\x7d")
        { uri := { scheme := "file", authority := "", path := "/w/f.jsonnet",
                   query := "", fragment := "" },
          languageId := "jsonnet", fileName := "/w/f.jsonnet" }
      = html.body (html.codeLiteral
          (yamlSafeDump (Json.obj (JsonFields.cons "a" (Json.num "1") JsonFields.nil)))) :=
  (c3_amended_fresh_config_except_executable _ _ (fun _ => Except.error "") _).2.2 "\x7b\"a\": 1\x7d"
    (Json.obj (JsonFields.cons "a" (Json.num "1") JsonFields.nil)) rfl

/-! URI round-trip machinery. -/

theorem splitFirst_of_not_mem (c : Char) (l : List Char) (h : c ∉ l) :
    splitFirst c l = none := by
  induction l with
  | nil => rfl
  | cons x xs ih =>
    simp only [List.mem_cons, not_or] at h
    simp [splitFirst, if_neg (fun he : x = c => h.1 he.symm), ih h.2]

theorem splitFirst_append (c : Char) (a b : List Char) (h : c ∉ a) :
    splitFirst c (a ++ c :: b) = some (a, b) := by
  induction a with
  | nil => simp [splitFirst]
  | cons x xs ih =>
    simp only [List.mem_cons, not_or] at h
    simp [splitFirst, if_neg (fun he : x = c => h.1 he.symm), ih h.2]

theorem splitTail_of_not_mem (c : Char) (l : List Char) (h : c ∉ l) :
    splitTail c l = (l, []) := by
  simp [splitTail, splitFirst_of_not_mem c l h]

theorem splitTail_append (c : Char) (a b : List Char) (h : c ∉ a) :
    splitTail c (a ++ c :: b) = (a, b) := by
  simp [splitTail, splitFirst_append c a b h]

theorem schemeSplit_append (S r : List Char) (hne : S ≠ []) (hc : ':' ∉ S)
    (hs : '/' ∉ S) : schemeSplit (S ++ ':' :: r) = (S, r) := by
  simp [schemeSplit, splitFirst_append ':' S r hc, hne, hs]

theorem takeWhile_authority (A P : List Char) (hA : '/' ∉ A)
    (hP : P = [] ∨ P.head? = some '/') :
    (A ++ P).takeWhile (fun c => c != '/') = A
    ∧ (A ++ P).dropWhile (fun c => c != '/') = P := by
  induction A with
  | nil =>
    simp only [List.nil_append]
    rcases hP with h | h
    · subst h; simp
    · rcases P with _ | ⟨p, ps⟩
      · simp at h
      · simp only [List.head?_cons, Option.some.injEq] at h
        subst h
        simp [List.takeWhile_cons, List.dropWhile_cons]
  | cons a as ih =>
    simp only [List.mem_cons, not_or] at hA
    have ha : (a != '/') = true := by
      simp only [bne_iff_ne, ne_eq]
      exact fun he => hA.1 he.symm
    obtain ⟨ht, hd⟩ := ih hA.2
    simp [List.takeWhile_cons, List.dropWhile_cons, ha, ht, hd]

theorem authoritySplit_slashes (A P : List Char) (hA : '/' ∉ A)
    (hP : P = [] ∨ P.head? = some '/') :
    authoritySplit ('/' :: '/' :: (A ++ P)) = (A, P) := by
  obtain ⟨h1, h2⟩ := takeWhile_authority A P hA hP
  simp [authoritySplit, h1, h2]

theorem authoritySplit_no_slashes (cs : List Char) (h : cs.take 2 ≠ ['/', '/']) :
    authoritySplit cs = ([], cs) := by
  unfold authoritySplit
  split
  · rename_i r
    simp at h
  · rfl

theorem string_toList_eq_nil (s : String) : s.toList = [] ↔ s = "" :=
  ⟨fun hl => by rw [← String.asString_toList s, hl]; rfl, fun h => by rw [h]; rfl⟩

theorem string_data_eq_nil (s : String) : s.data = [] ↔ s = "" :=
  string_toList_eq_nil s

theorem string_asString_data (s : String) : s.data.asString = s :=
  String.asString_toList s

theorem splitTail_opt (c : Char) (W T : List Char) (hW : c ∉ W) :
    splitTail c (W ++ (if T = [] then [] else c :: T)) = (W, T) := by
  by_cases h : T = []
  · subst h
    simp [splitTail_of_not_mem c W hW]
  · rw [if_neg h, splitTail_append c W T hW]

theorem toString_toList (u : Uri) (hs : u.scheme ≠ "") :
    (Uri.toString u).toList
      = u.scheme.toList ++ ':'
        :: ((if u.authority ≠ "" ∨ u.scheme = "file"
              then '/' :: '/' :: u.authority.toList else [])
          ++ (u.path.toList
            ++ ((if u.query.toList = [] then [] else '?' :: u.query.toList)
              ++ (if u.fragment.toList = [] then [] else '#' :: u.fragment.toList)))) := by
  by_cases h1 : (u.authority ≠ "" ∨ u.scheme = "file") <;>
    by_cases h2 : u.query = "" <;> by_cases h3 : u.fragment = "" <;>
    simp [Uri.toString, if_neg hs, h1, h2, h3, string_toList_eq_nil, string_data_eq_nil,
      String.toList, String.data_append, List.append_assoc,
      show ("" : String).data = [] from rfl,
      show (":" : String).data = [':'] from rfl,
      show ("//" : String).data = ['/', '/'] from rfl,
      show ("?" : String).data = ['?'] from rfl,
      show ("#" : String).data = ['#'] from rfl]

/-- C1: deriving the preview identity with `canonicalPreviewUri` and
then recovering the original location by parsing the identity's query
(as `provideTextDocumentContent` does) is the identity on well-formed
source URIs. -/
theorem c1_preview_identity_roundtrip (u : Uri) (h : u.wellFormed) :
    Uri.parse ((jsonnet.canonicalPreviewUri u).query) = u := by
  obtain ⟨s, a, p, q, f⟩ := u
  obtain ⟨hs, hS, hA, hP, hQ, hPabs, hPns⟩ := h
  dsimp only at hs hS hA hP hQ hPabs hPns
  show Uri.parseChars ((Uri.toString ⟨s, a, p, q, f⟩).toList) = ⟨s, a, p, q, f⟩
  rw [toString_toList ⟨s, a, p, q, f⟩ hs]
  dsimp only
  have hS_ne : s.toList ≠ [] := fun hl => hs ((string_toList_eq_nil s).1 hl)
  have hS_c : ':' ∉ s.toList := fun hm => ((hS _ hm).1) rfl
  have hS_s : '/' ∉ s.toList := fun hm => ((hS _ hm).2.1) rfl
  have hS_q : '?' ∉ s.toList := fun hm => ((hS _ hm).2.2.1) rfl
  have hS_h : '#' ∉ s.toList := fun hm => ((hS _ hm).2.2.2) rfl
  have hA_s : '/' ∉ a.toList := fun hm => ((hA _ hm).1) rfl
  have hA_q : '?' ∉ a.toList := fun hm => ((hA _ hm).2.1) rfl
  have hA_h : '#' ∉ a.toList := fun hm => ((hA _ hm).2.2) rfl
  have hP_q : '?' ∉ p.toList := fun hm => ((hP _ hm).1) rfl
  have hP_h : '#' ∉ p.toList := fun hm => ((hP _ hm).2) rfl
  have hQ_h : '#' ∉ q.toList := fun hm => (hQ _ hm) rfl
  have hPabs2 : p.toList = [] ∨ p.toList.head? = some '/' := by
    rcases hPabs with hp | hp
    · exact Or.inl (by rw [hp]; rfl)
    · exact Or.inr hp
  have hqseg_h : '#' ∉ (if q.toList = [] then [] else '?' :: q.toList) := by
    split
    · simp
    · intro hm
      rcases List.mem_cons.1 hm with hm | hm
      · exact absurd hm (by decide)
      · exact hQ_h hm
  by_cases hsl : a ≠ "" ∨ s = "file"
  · rw [if_pos hsl]
    have hX_q : '?' ∉ s.toList ++ ':' :: ('/' :: '/' :: (a.toList ++ p.toList)) := by
      intro hm
      simp only [List.mem_append, List.mem_cons] at hm
      rcases hm with hm | hm | hm | hm | hm | hm
      · exact hS_q hm
      · exact absurd hm (by decide)
      · exact absurd hm (by decide)
      · exact absurd hm (by decide)
      · exact hA_q hm
      · exact hP_q hm
    have hX_h : '#' ∉ s.toList ++ ':' :: ('/' :: '/' :: (a.toList ++ p.toList)) := by
      intro hm
      simp only [List.mem_append, List.mem_cons] at hm
      rcases hm with hm | hm | hm | hm | hm | hm
      · exact hS_h hm
      · exact absurd hm (by decide)
      · exact absurd hm (by decide)
      · exact absurd hm (by decide)
      · exact hA_h hm
      · exact hP_h hm
    have hXq_h : '#' ∉ (s.toList ++ ':' :: ('/' :: '/' :: (a.toList ++ p.toList)))
        ++ (if q.toList = [] then [] else '?' :: q.toList) := by
      intro hm
      rcases List.mem_append.1 hm with hm | hm
      · exact hX_h hm
      · exact hqseg_h hm
    have hgroup : s.toList ++ ':' :: (('/' :: '/' :: a.toList) ++ (p.toList
          ++ ((if q.toList = [] then [] else '?' :: q.toList)
            ++ (if f.toList = [] then [] else '#' :: f.toList))))
        = ((s.toList ++ ':' :: ('/' :: '/' :: (a.toList ++ p.toList)))
            ++ (if q.toList = [] then [] else '?' :: q.toList))
          ++ (if f.toList = [] then [] else '#' :: f.toList) := by
      simp [List.append_assoc]
    rw [hgroup]
    have hf := splitTail_opt '#' _ f.toList hXq_h
    have hq2 := splitTail_opt '?' _ q.toList hX_q
    have hss := schemeSplit_append s.toList ('/' :: '/' :: (a.toList ++ p.toList))
      hS_ne hS_c hS_s
    have hau := authoritySplit_slashes a.toList p.toList hA_s hPabs2
    simp only [Uri.parseChars, hf, hq2, hss, hau]
    simp [String.asString_toList, string_asString_data]
  · rw [if_neg hsl]
    push_neg at hsl
    obtain ⟨hae, hsf⟩ := hsl
    have hX_q : '?' ∉ s.toList ++ ':' :: p.toList := by
      intro hm
      simp only [List.mem_append, List.mem_cons] at hm
      rcases hm with hm | hm | hm
      · exact hS_q hm
      · exact absurd hm (by decide)
      · exact hP_q hm
    have hX_h : '#' ∉ s.toList ++ ':' :: p.toList := by
      intro hm
      simp only [List.mem_append, List.mem_cons] at hm
      rcases hm with hm | hm | hm
      · exact hS_h hm
      · exact absurd hm (by decide)
      · exact hP_h hm
    have hXq_h : '#' ∉ (s.toList ++ ':' :: p.toList)
        ++ (if q.toList = [] then [] else '?' :: q.toList) := by
      intro hm
      rcases List.mem_append.1 hm with hm | hm
      · exact hX_h hm
      · exact hqseg_h hm
    have hgroup : s.toList ++ ':' :: (([] : List Char) ++ (p.toList
          ++ ((if q.toList = [] then [] else '?' :: q.toList)
            ++ (if f.toList = [] then [] else '#' :: f.toList))))
        = ((s.toList ++ ':' :: p.toList)
            ++ (if q.toList = [] then [] else '?' :: q.toList))
          ++ (if f.toList = [] then [] else '#' :: f.toList) := by
      simp [List.append_assoc]
    rw [hgroup]
    have hf := splitTail_opt '#' _ f.toList hXq_h
    have hq2 := splitTail_opt '?' _ q.toList hX_q
    have hss := schemeSplit_append s.toList p.toList hS_ne hS_c hS_s
    have hau := authoritySplit_no_slashes p.toList (hPns hae hsf)
    simp only [Uri.parseChars, hf, hq2, hss, hau]
    simp [String.asString_toList, string_asString_data, hae,
      show ([] : List Char).asString = "" from rfl]

/-- C1 witness: a concrete well-formed `file` URI round-trips through
the preview identity. -/
theorem c1_preview_identity_roundtrip_witness :
    Uri.wellFormed
      { scheme := "file", authority := "", path := "/home/user/test.jsonnet",
        query := "", fragment := "" }
    ∧ Uri.parse ((jsonnet.canonicalPreviewUri
        { scheme := "file", authority := "", path := "/home/user/test.jsonnet",
          query := "", fragment := "" }).query)
      = { scheme := "file", authority := "", path := "/home/user/test.jsonnet",
          query := "", fragment := "" } :=
  ⟨by decide, c1_preview_identity_roundtrip _ (by decide)⟩
